import Mathlib

/-!
# Build configuration of the AR application

A shallow embedding of `vite.config.js` (local development) and
`vite.config.github.js` (GitHub Pages deployment).

JavaScript strings are modelled by `String`; the characters the code looks at
(`.` and the ASCII letters of `glb`, `gltf`, `bin`) are single code units, so
splitting and searching character by character agrees with the JavaScript
behaviour.  `undefined` is modelled by `none`.
-/

namespace AR

/-! ## JavaScript primitives used by the configuration files -/

/-- Character-level `split` for a one-character separator: the segments of the
input between occurrences of `sep`, in order; the empty input gives one empty
segment. -/
def splitChars (sep : Char) : List Char → List (List Char)
  | [] => [[]]
  | c :: cs =>
    if c = sep then [] :: splitChars sep cs
    else
      match splitChars sep cs with
      | [] => [[c]]
      | seg :: rest => (c :: seg) :: rest

/-- The method `String.prototype.split` with a one-character separator. -/
def split (s : String) (sep : Char) : List String :=
  (splitChars sep s.data).map String.mk

/-- Whether one of the alternatives of a regular expression `/a|b|c/` (each a
literal) matches at the start of `cs`. -/
def matchesAt (alts : List String) (cs : List Char) : Bool :=
  alts.any fun a => a.data.isPrefixOf cs

/-- Unanchored search of `/a|b|c/` in a character list: a match may start at
any position. -/
def searchChars (alts : List String) : List Char → Bool
  | [] => matchesAt alts []
  | c :: cs => matchesAt alts (c :: cs) || searchChars alts cs

/-- Conversion of a possibly undefined value to a string, as done by
`RegExp.prototype.test` on its argument. -/
def toJSString : Option String → String
  | some s => s
  | none => "undefined"

/-- The method `RegExp.prototype.test` for a regular expression that is an
alternation of literals, without anchors or flags. -/
def regexTest (alts : List String) (arg : Option String) : Bool :=
  searchChars alts (toJSString arg).data

/-- The operator `a || b` on a possibly undefined string: `b` when `a` is
undefined or empty. -/
def jsOr (a : Option String) (b : String) : String :=
  match a with
  | some s => if s = "" then b else s
  | none => b

/-- Truthiness of a string. -/
def truthy (s : String) : Bool := s != ""

/-! ## Data model -/

/-- The two environment variables read by `vite.config.github.js`. -/
structure Env where
  GITHUB_ACTIONS : Option String
  VITE_REPO_NAME : Option String
  deriving DecidableEq, Repr

/-- The argument of the `assetFileNames` callback; `name` may be undefined. -/
structure AssetInfo where
  name : Option String
  deriving DecidableEq, Repr

/-- The `server` block. -/
structure ServerOptions where
  port : Nat
  https : Bool
  host : String
  open_ : Bool
  cors : Bool
  strictPort : Bool
  deriving DecidableEq, Repr

/-- The `preview` block. -/
structure PreviewOptions where
  port : Nat
  https : Bool
  host : String
  cors : Bool
  strictPort : Bool
  deriving DecidableEq, Repr

/-- The `build.rollupOptions.output` block; `none` is a thrown `TypeError` in
the result of the callback. -/
structure OutputOptions where
  manualChunks : Option String
  assetFileNames : AssetInfo → Option String
  chunkFileNames : String
  entryFileNames : String

/-- The `build.rollupOptions` block; `input` lists the entries in source
order. -/
structure RollupOptions where
  input : List (String × String)
  output : OutputOptions

/-- The `build.terserOptions.compress` block. -/
structure CompressOptions where
  drop_console : Bool
  drop_debugger : Bool
  passes : Nat
  deriving DecidableEq, Repr

/-- The `build.terserOptions.format` block. -/
structure FormatOptions where
  comments : Bool
  deriving DecidableEq, Repr

/-- The `build.terserOptions` block. -/
structure TerserOptions where
  compress : CompressOptions
  format : FormatOptions
  deriving DecidableEq, Repr

/-- The `build` block. -/
structure BuildOptions where
  outDir : String
  assetsDir : String
  sourcemap : Bool
  minify : String
  rollupOptions : RollupOptions
  assetsInlineLimit : Nat
  target : List String
  terserOptions : TerserOptions
  reportCompressedSize : Bool
  chunkSizeWarningLimit : Nat

/-- The `optimizeDeps` block. -/
structure OptimizeDeps where
  exclude : List String
  deriving DecidableEq, Repr

/-- The object passed to `defineConfig`; plugins are listed by the expression
that creates them. -/
structure Config where
  root : String
  base : String
  server : ServerOptions
  build : BuildOptions
  assetsInclude : List String
  preview : PreviewOptions
  plugins : List String
  optimizeDeps : OptimizeDeps
  publicDir : String

/-! ## `vite.config.js` -/

/-- The callback `build.rollupOptions.output.assetFileNames` of
`vite.config.js`. -/
def assetFileNames (assetInfo : AssetInfo) : Option String :=
  match assetInfo.name with
  | none => none
  | some name =>
    let info := split name '.'
    let extType := info[info.length - 1]?
    if regexTest ["glb", "gltf", "bin"] extType then
      some "models/[name]-[hash][extname]"
    else
      some "assets/[name]-[hash][extname]"

/-- The default export of `vite.config.js`. -/
def viteConfig : Config where
  root := "./"
  base := "./"
  server := {
    port := 3000
    https := false
    host := "localhost"
    open_ := true
    cors := true
    strictPort := false }
  build := {
    outDir := "dist"
    assetsDir := "assets"
    sourcemap := false
    minify := "terser"
    rollupOptions := {
      input := [("main", "./index.html"), ("placement", "./placement.html"),
        ("marker", "./marker.html"), ("location", "./location.html")]
      output := {
        manualChunks := none
        assetFileNames := assetFileNames
        chunkFileNames := "assets/[name]-[hash].js"
        entryFileNames := "assets/[name]-[hash].js" } }
    assetsInlineLimit := 0
    target := ["es2020", "edge88", "firefox78", "chrome87", "safari14"]
    terserOptions := {
      compress := { drop_console := false, drop_debugger := true, passes := 2 }
      format := { comments := false } }
    reportCompressedSize := true
    chunkSizeWarningLimit := 1000 }
  assetsInclude := ["**/*.glb", "**/*.gltf", "**/*.bin", "**/*.patt"]
  preview := {
    port := 4173
    https := false
    host := "localhost"
    cors := true
    strictPort := false }
  plugins := []
  optimizeDeps := { exclude := [] }
  publicDir := "public"

/-! ## `vite.config.github.js` -/

/-- The constant `repoName`. -/
def repoName (env : Env) : String := jsOr env.VITE_REPO_NAME ""

/-- The constant `isGitHubPages`. -/
def isGitHubPages (env : Env) : Bool := env.GITHUB_ACTIONS == some "true"

/-- The `base` expression of `vite.config.github.js`. -/
def base (env : Env) : String :=
  if isGitHubPages env && truthy (repoName env) then
    "/" ++ repoName env ++ "/"
  else
    "./"

/-- The callback `build.rollupOptions.output.assetFileNames` of
`vite.config.github.js`. -/
def assetFileNamesGitHub (assetInfo : AssetInfo) : Option String :=
  match assetInfo.name with
  | none => none
  | some name =>
    let info := split name '.'
    let extType := info[info.length - 1]?
    if regexTest ["glb", "gltf", "bin"] extType then
      some "models/[name]-[hash][extname]"
    else
      some "assets/[name]-[hash][extname]"

/-- The default export of `vite.config.github.js`, in a given environment. -/
def viteConfigGitHub (env : Env) : Config where
  root := "./"
  base := base env
  server := {
    port := 3000
    https := true
    host := "0.0.0.0"
    open_ := true
    cors := true
    strictPort := false }
  build := {
    outDir := "dist"
    assetsDir := "assets"
    sourcemap := false
    minify := "terser"
    rollupOptions := {
      input := [("main", "./index.html"), ("placement", "./placement.html"),
        ("marker", "./marker.html"), ("location", "./location.html")]
      output := {
        manualChunks := none
        assetFileNames := assetFileNamesGitHub
        chunkFileNames := "assets/[name]-[hash].js"
        entryFileNames := "assets/[name]-[hash].js" } }
    assetsInlineLimit := 0
    target := ["es2020", "edge88", "firefox78", "chrome87", "safari14"]
    terserOptions := {
      compress := { drop_console := false, drop_debugger := true, passes := 2 }
      format := { comments := false } }
    reportCompressedSize := true
    chunkSizeWarningLimit := 1000 }
  assetsInclude := ["**/*.glb", "**/*.gltf", "**/*.bin", "**/*.patt"]
  preview := {
    port := 4173
    https := true
    host := "0.0.0.0"
    cors := true
    strictPort := false }
  plugins := ["basicSsl()"]
  optimizeDeps := { exclude := [] }
  publicDir := "public"

/-! ## Specification vocabulary -/

/-- The template for model files. -/
def modelsTemplate : String := "models/[name]-[hash][extname]"

/-- The template for all other assets. -/
def assetsTemplate : String := "assets/[name]-[hash][extname]"

/-- `seg` is the last segment of `name` with respect to `.`: it holds no `.`
and is either the whole name or what follows a `.` in the name. -/
def IsLastSegment (name seg : String) : Prop :=
  '.' ∉ seg.data ∧ (name = seg ∨ ∃ pre : String, name = pre ++ "." ++ seg)

/-- `pat` occurs in `s` as a contiguous substring. -/
def Occurs (pat s : String) : Prop :=
  ∃ u v : String, s = u ++ pat ++ v

/-- One of `glb`, `gltf`, `bin` occurs in `s`. -/
def MentionsModelExt (s : String) : Prop :=
  Occurs "glb" s ∨ Occurs "gltf" s ∨ Occurs "bin" s

/-! ## Lemmas on the primitives -/

theorem splitChars_ne_nil (sep : Char) (cs : List Char) : splitChars sep cs ≠ [] := by
  induction cs with
  | nil => simp [splitChars]
  | cons c cs ih =>
    simp only [splitChars]
    split
    · simp
    · split <;> simp

theorem splitChars_of_not_mem (sep : Char) (cs : List Char) (h : sep ∉ cs) :
    splitChars sep cs = [cs] := by
  induction cs with
  | nil => simp [splitChars]
  | cons c cs ih =>
    have hc : c ≠ sep := fun e => h (by simp [e])
    have hcs : sep ∉ cs := fun m => h (List.mem_cons_of_mem _ m)
    simp [splitChars, hc, ih hcs]

theorem getLast?_splitChars_cons (sep c : Char) (cs : List Char) (h : c ≠ sep)
    (hsep : sep ∈ cs) :
    (splitChars sep (c :: cs)).getLast? = (splitChars sep cs).getLast? := by
  have hlen : ∀ ds : List Char, sep ∈ ds → 2 ≤ (splitChars sep ds).length := by
    intro ds
    induction ds with
    | nil => simp
    | cons d ds ih =>
      intro hm
      simp only [splitChars]
      split
      · have := splitChars_ne_nil sep ds
        cases hds : splitChars sep ds with
        | nil => exact absurd hds this
        | cons a l => simp
      · rename_i hd
        have hm2 : sep ∈ ds := by
          rcases List.mem_cons.1 hm with e | m
          · exact absurd e.symm hd
          · exact m
        have := ih hm2
        cases hds : splitChars sep ds with
        | nil => simp [hds] at this
        | cons a l => simpa [hds] using this
  have h2 := hlen cs hsep
  simp only [splitChars, if_neg h]
  cases hds : splitChars sep cs with
  | nil => simp [hds] at h2
  | cons a l =>
    cases l with
    | nil => simp [hds] at h2
    | cons b l => simp [List.getLast?_cons_cons]

theorem getLast?_splitChars_append (sep : Char) (pre seg : List Char) (h : sep ∉ seg) :
    (splitChars sep (pre ++ sep :: seg)).getLast? = some seg := by
  induction pre with
  | nil =>
    simp [splitChars, splitChars_of_not_mem sep seg h, List.getLast?_cons_cons]
  | cons c pre ih =>
    by_cases hc : c = sep
    · subst hc
      have hne := splitChars_ne_nil c (pre ++ c :: seg)
      simp only [List.cons_append, splitChars, if_true]
      cases hds : splitChars c (pre ++ c :: seg) with
      | nil => exact absurd hds hne
      | cons a l => rw [List.getLast?_cons_cons, ← hds]; exact ih
    · rw [List.cons_append, getLast?_splitChars_cons sep c _ hc (by simp)]
      exact ih

theorem matchesAt_iff (alts : List String) (cs : List Char) :
    matchesAt alts cs = true ↔ ∃ a ∈ alts, ∃ v, cs = a.data ++ v := by
  simp only [matchesAt, List.any_eq_true, List.isPrefixOf_iff_prefix]
  constructor
  · rintro ⟨a, ha, v, hv⟩
    exact ⟨a, ha, v, hv.symm⟩
  · rintro ⟨a, ha, v, hv⟩
    exact ⟨a, ha, v, hv.symm⟩

theorem searchChars_iff (alts : List String) (cs : List Char) :
    searchChars alts cs = true ↔ ∃ a ∈ alts, ∃ u v, cs = u ++ a.data ++ v := by
  induction cs with
  | nil =>
    simp only [searchChars, matchesAt_iff]
    constructor
    · rintro ⟨a, ha, v, hv⟩
      exact ⟨a, ha, [], v, by simpa using hv⟩
    · rintro ⟨a, ha, u, v, hv⟩
      have hu : u = [] := by
        cases u with
        | nil => rfl
        | cons x u => simp at hv
      subst hu
      exact ⟨a, ha, v, by simpa using hv⟩
  | cons c cs ih =>
    simp only [searchChars, Bool.or_eq_true, matchesAt_iff, ih]
    constructor
    · rintro (⟨a, ha, v, hv⟩ | ⟨a, ha, u, v, hv⟩)
      · exact ⟨a, ha, [], v, by simpa using hv⟩
      · exact ⟨a, ha, c :: u, v, by simp [hv]⟩
    · rintro ⟨a, ha, u, v, hv⟩
      cases u with
      | nil => exact Or.inl ⟨a, ha, v, by simpa using hv⟩
      | cons x u =>
        simp only [List.cons_append, List.cons.injEq] at hv
        exact Or.inr ⟨a, ha, u, v, hv.2⟩

theorem occurs_iff (pat s : String) :
    Occurs pat s ↔ ∃ u v : List Char, s.data = u ++ pat.data ++ v := by
  constructor
  · rintro ⟨u, v, rfl⟩
    exact ⟨u.data, v.data, by simp [String.data_append]⟩
  · rintro ⟨u, v, h⟩
    exact ⟨⟨u⟩, ⟨v⟩, String.ext (by simp [String.data_append, h])⟩

theorem searchChars_modelExt_iff (s : String) :
    searchChars ["glb", "gltf", "bin"] s.data = true ↔ MentionsModelExt s := by
  simp only [searchChars_iff, MentionsModelExt, occurs_iff, List.mem_cons, List.mem_singleton,
    List.not_mem_nil, or_false, exists_eq_or_imp, exists_eq_left]

/-- The two callbacks are the same function. -/
theorem assetFileNamesGitHub_eq : assetFileNamesGitHub = assetFileNames := by
  funext a
  rfl

/-- The extension looked at by the callback is the last element of the split. -/
theorem extType_eq (name : String) :
    (split name '.')[(split name '.').length - 1]? =
      (splitChars '.' name.data).getLast?.map String.mk := by
  rw [← List.getLast?_eq_getElem?, split, List.getLast?_map]

theorem extType_of_lastSegment (name seg : String) (h : IsLastSegment name seg) :
    (split name '.')[(split name '.').length - 1]? = some seg := by
  obtain ⟨hdot, hname⟩ := h
  rw [extType_eq]
  rcases hname with rfl | ⟨pre, rfl⟩
  · simp [splitChars_of_not_mem '.' _ hdot]
  · have hd : (pre ++ "." ++ seg).data = pre.data ++ '.' :: seg.data := by
      simp [String.data_append]
    rw [hd, getLast?_splitChars_append '.' _ _ hdot]
    rfl

/-- The callback decides on the last segment of the name alone. -/
theorem assetFileNames_of_lastSegment (name seg : String) (h : IsLastSegment name seg) :
    assetFileNames ⟨some name⟩ =
      if searchChars ["glb", "gltf", "bin"] seg.data then some modelsTemplate
      else some assetsTemplate := by
  have hx := extType_of_lastSegment name seg h
  simp only [assetFileNames, hx, regexTest, toJSString]
  rfl

/-- Every name has a last segment. -/
theorem exists_lastSegment (name : String) : ∃ seg, IsLastSegment name seg := by
  suffices H : ∀ cs : List Char, ∃ seg : List Char, '.' ∉ seg ∧
      (cs = seg ∨ ∃ pre : List Char, cs = pre ++ '.' :: seg) by
    obtain ⟨seg, hdot, hcs⟩ := H name.data
    refine ⟨⟨seg⟩, hdot, ?_⟩
    rcases hcs with h | ⟨pre, h⟩
    · exact Or.inl (String.ext h)
    · exact Or.inr ⟨⟨pre⟩, String.ext (by simp [String.data_append, h])⟩
  intro cs
  induction cs with
  | nil => exact ⟨[], by simp, Or.inl rfl⟩
  | cons c cs ih =>
    obtain ⟨seg, hdot, hcs⟩ := ih
    rcases hcs with h | ⟨pre, h⟩
    · by_cases hc : c = '.'
      · exact ⟨seg, hdot, Or.inr ⟨[], by simp [hc, h]⟩⟩
      · refine ⟨c :: seg, ?_, Or.inl (by rw [h])⟩
        intro hm
        rcases List.mem_cons.1 hm with e | m
        · exact hc e.symm
        · exact hdot m
    · exact ⟨seg, hdot, Or.inr ⟨c :: pre, by simp [h]⟩⟩

theorem dotSlash_ne_slashed (r : String) : "./" ≠ "/" ++ r ++ "/" := by
  intro h
  have hd := congrArg String.data h
  simp [String.data_append] at hd

theorem models_ne_assets :
    "models/[name]-[hash][extname]" ≠ "assets/[name]-[hash][extname]" := by
  decide

/-! ## The claims -/

/-- C1: in `vite.config.github.js` the base path is `/` + VITE_REPO_NAME + `/`
exactly when GITHUB_ACTIONS is the string `true` and VITE_REPO_NAME is set and
non-empty; in every other environment it is `./`; GITHUB_ACTIONS=`true` with
VITE_REPO_NAME=`foo` gives `/foo/`. -/
theorem C1_base_path (env : Env) :
    ((∃ r, env.VITE_REPO_NAME = some r ∧ (viteConfigGitHub env).base = "/" ++ r ++ "/") ↔
      (env.GITHUB_ACTIONS = some "true" ∧ ∃ r, env.VITE_REPO_NAME = some r ∧ r ≠ "")) ∧
    ((env.GITHUB_ACTIONS = some "true" ∧ ∃ r, env.VITE_REPO_NAME = some r ∧ r ≠ "") ∨
      (viteConfigGitHub env).base = "./") ∧
    (viteConfigGitHub ⟨some "true", some "foo"⟩).base = "/foo/" := by
  obtain ⟨ga, rn⟩ := env
  have hfoo : (viteConfigGitHub ⟨some "true", some "foo"⟩).base = "/foo/" := by decide
  by_cases hga : ga = some "true"
  · cases rn with
    | none =>
      refine ⟨⟨?_, ?_⟩, Or.inr ?_, hfoo⟩
      · rintro ⟨r, hr, -⟩
        simp at hr
      · rintro ⟨-, r, hr, -⟩
        simp at hr
      · simp [viteConfigGitHub, base, repoName, jsOr, truthy]
    | some r =>
      by_cases hr : r = ""
      · have hb : (viteConfigGitHub ⟨ga, some r⟩).base = "./" := by
          simp [viteConfigGitHub, base, repoName, jsOr, truthy, hr]
        refine ⟨⟨?_, ?_⟩, Or.inr hb, hfoo⟩
        · rintro ⟨r2, -, h2⟩
          rw [hb] at h2
          exact absurd h2 (dotSlash_ne_slashed r2)
        · rintro ⟨-, r2, h2, hne⟩
          simp only [Option.some.injEq] at h2
          exact absurd (h2 ▸ hr) hne
      · have hb : (viteConfigGitHub ⟨ga, some r⟩).base = "/" ++ r ++ "/" := by
          simp [viteConfigGitHub, base, repoName, jsOr, truthy, hr, isGitHubPages, hga]
        exact ⟨⟨fun _ => ⟨hga, r, rfl, hr⟩, fun _ => ⟨r, rfl, hb⟩⟩, Or.inl ⟨hga, r, rfl, hr⟩, hfoo⟩
  · have hb : (viteConfigGitHub ⟨ga, rn⟩).base = "./" := by
      simp [viteConfigGitHub, base, isGitHubPages, hga]
    refine ⟨⟨?_, ?_⟩, Or.inr hb, hfoo⟩
    · rintro ⟨r2, -, h2⟩
      rw [hb] at h2
      exact absurd h2 (dotSlash_ne_slashed r2)
    · rintro ⟨h, -⟩
      exact absurd h hga

/-- C2: for a name whose text after the last `.` is exactly `glb`, `gltf` or
`bin`, the `assetFileNames` callback of both configurations returns
`models/[name]-[hash][extname]`, which is not the template
`assets/[name]-[hash][extname]`. -/
theorem C2_model_extensions (env : Env) (name ext : String)
    (hext : ext = "glb" ∨ ext = "gltf" ∨ ext = "bin")
    (hname : ∃ pre : String, name = pre ++ "." ++ ext) :
    viteConfig.build.rollupOptions.output.assetFileNames ⟨some name⟩ =
      some "models/[name]-[hash][extname]" ∧
    (viteConfigGitHub env).build.rollupOptions.output.assetFileNames ⟨some name⟩ =
      some "models/[name]-[hash][extname]" ∧
    "models/[name]-[hash][extname]" ≠ "assets/[name]-[hash][extname]" := by
  have hseg : IsLastSegment name ext := by
    refine ⟨?_, Or.inr hname⟩
    rcases hext with rfl | rfl | rfl <;> decide
  have hs : searchChars ["glb", "gltf", "bin"] ext.data = true := by
    rcases hext with rfl | rfl | rfl <;> decide
  have h1 : assetFileNames ⟨some name⟩ = some "models/[name]-[hash][extname]" := by
    rw [assetFileNames_of_lastSegment name ext hseg, if_pos hs]
    rfl
  refine ⟨h1, ?_, models_ne_assets⟩
  show assetFileNamesGitHub ⟨some name⟩ = _
  rw [assetFileNamesGitHub_eq]
  exact h1

theorem C2_model_extensions_witness :
    viteConfig.build.rollupOptions.output.assetFileNames ⟨some "scene.v2.gltf"⟩ =
      some "models/[name]-[hash][extname]" ∧
    (viteConfigGitHub ⟨some "true", some "foo"⟩).build.rollupOptions.output.assetFileNames
        ⟨some "scene.v2.gltf"⟩ = some "models/[name]-[hash][extname]" ∧
    "models/[name]-[hash][extname]" ≠ "assets/[name]-[hash][extname]" :=
  C2_model_extensions ⟨some "true", some "foo"⟩ "scene.v2.gltf" "gltf" (by decide)
    ⟨"scene.v2", by decide⟩

/-- C3 (evaluation at a failing input): the name `data.binary` has last
segment `binary`, which is none of `glb`, `gltf`, `bin`, yet the callback of
both configurations returns `models/[name]-[hash][extname]`. -/
theorem C3_binary_routed_to_models :
    IsLastSegment "data.binary" "binary" ∧
    "binary" ∉ ["glb", "gltf", "bin"] ∧
    viteConfig.build.rollupOptions.output.assetFileNames ⟨some "data.binary"⟩ =
      some "models/[name]-[hash][extname]" ∧
    (viteConfigGitHub ⟨none, none⟩).build.rollupOptions.output.assetFileNames
        ⟨some "data.binary"⟩ = some "models/[name]-[hash][extname]" :=
  ⟨⟨by decide, Or.inr ⟨"data", by decide⟩⟩, by decide, by decide, by decide⟩

/-- C4: both configurations declare exactly the four entries `main`,
`placement`, `marker`, `location`, mapped to `./index.html`,
`./placement.html`, `./marker.html`, `./location.html`; keys and paths are
pairwise distinct and the two entry maps are equal. -/
theorem C4_entry_points (env : Env) :
    viteConfig.build.rollupOptions.input =
      [("main", "./index.html"), ("placement", "./placement.html"),
        ("marker", "./marker.html"), ("location", "./location.html")] ∧
    viteConfig.build.rollupOptions.input.length = 4 ∧
    (viteConfig.build.rollupOptions.input.map Prod.fst).Nodup ∧
    (viteConfig.build.rollupOptions.input.map Prod.snd).Nodup ∧
    (viteConfigGitHub env).build.rollupOptions.input = viteConfig.build.rollupOptions.input :=
  ⟨rfl, rfl, by decide, by decide, rfl⟩

/-- C5: the development configuration has TLS off and host `localhost` for
the dev and preview servers, the GitHub configuration has TLS on and host
`0.0.0.0` for both; in both the dev port is 3000, the preview port is 4173,
CORS is on and strictPort is off; this holds in every environment. -/
theorem C5_server_options (env : Env) :
    (viteConfig.server.https = false ∧ viteConfig.server.host = "localhost" ∧
      viteConfig.preview.https = false ∧ viteConfig.preview.host = "localhost") ∧
    ((viteConfigGitHub env).server.https = true ∧
      (viteConfigGitHub env).server.host = "0.0.0.0" ∧
      (viteConfigGitHub env).preview.https = true ∧
      (viteConfigGitHub env).preview.host = "0.0.0.0") ∧
    (viteConfig.server.port = 3000 ∧ viteConfig.preview.port = 4173 ∧
      viteConfig.server.cors = true ∧ viteConfig.preview.cors = true ∧
      viteConfig.server.strictPort = false ∧ viteConfig.preview.strictPort = false) ∧
    ((viteConfigGitHub env).server.port = 3000 ∧ (viteConfigGitHub env).preview.port = 4173 ∧
      (viteConfigGitHub env).server.cors = true ∧ (viteConfigGitHub env).preview.cors = true ∧
      (viteConfigGitHub env).server.strictPort = false ∧
      (viteConfigGitHub env).preview.strictPort = false) ∧
    (∀ env2 : Env, (viteConfigGitHub env2).server = (viteConfigGitHub env).server ∧
      (viteConfigGitHub env2).preview = (viteConfigGitHub env).preview) :=
  ⟨⟨rfl, rfl, rfl, rfl⟩, ⟨rfl, rfl, rfl, rfl⟩, ⟨rfl, rfl, rfl, rfl, rfl, rfl⟩,
    ⟨rfl, rfl, rfl, rfl, rfl, rfl⟩, fun _ => ⟨rfl, rfl⟩⟩

/-- C6: for every name, with `seg` its last `.`-separated segment (the whole
name when it has no `.`), the callback of either configuration returns
`models/[name]-[hash][extname]` exactly when `glb`, `gltf` or `bin` occurs in
`seg` as a contiguous substring, and `assets/[name]-[hash][extname]`
otherwise; two names with the same last segment get the same result. -/
theorem C6_routing_characterisation (name : String) :
    (∃ seg, IsLastSegment name seg) ∧
    ∀ seg, IsLastSegment name seg →
      (assetFileNames ⟨some name⟩ = some "models/[name]-[hash][extname]" ↔
        MentionsModelExt seg) ∧
      (assetFileNames ⟨some name⟩ = some "assets/[name]-[hash][extname]" ↔
        ¬ MentionsModelExt seg) ∧
      (assetFileNamesGitHub ⟨some name⟩ = some "models/[name]-[hash][extname]" ↔
        MentionsModelExt seg) ∧
      (assetFileNamesGitHub ⟨some name⟩ = some "assets/[name]-[hash][extname]" ↔
        ¬ MentionsModelExt seg) ∧
      ∀ other, IsLastSegment other seg →
        assetFileNames ⟨some other⟩ = assetFileNames ⟨some name⟩ ∧
        assetFileNamesGitHub ⟨some other⟩ = assetFileNamesGitHub ⟨some name⟩ := by
  refine ⟨exists_lastSegment name, ?_⟩
  intro seg hseg
  have hr := assetFileNames_of_lastSegment name seg hseg
  have hm := searchChars_modelExt_iff seg
  have h1 : assetFileNames ⟨some name⟩ = some "models/[name]-[hash][extname]" ↔
      MentionsModelExt seg := by
    rw [hr, ← hm]
    by_cases hs : searchChars ["glb", "gltf", "bin"] seg.data = true
    · simp [hs, modelsTemplate]
    · simp only [hs, if_false, iff_false, assetsTemplate]
      decide
  have h2 : assetFileNames ⟨some name⟩ = some "assets/[name]-[hash][extname]" ↔
      ¬ MentionsModelExt seg := by
    rw [hr, ← hm]
    by_cases hs : searchChars ["glb", "gltf", "bin"] seg.data = true
    · simp only [hs, if_true, not_true_eq_false, iff_false, modelsTemplate]
      decide
    · simp [hs, assetsTemplate]
  refine ⟨h1, h2, ?_, ?_, ?_⟩
  · rw [assetFileNamesGitHub_eq]
    exact h1
  · rw [assetFileNamesGitHub_eq]
    exact h2
  · intro other hother
    rw [assetFileNamesGitHub_eq, assetFileNames_of_lastSegment other seg hother, hr]
    exact ⟨rfl, rfl⟩

theorem C6_routing_characterisation_witness :
    (assetFileNames ⟨some "scene.v2.gltf"⟩ = some "models/[name]-[hash][extname]" ↔
      MentionsModelExt "gltf") ∧
    (assetFileNames ⟨some "notes.txt"⟩ = some "assets/[name]-[hash][extname]" ↔
      ¬ MentionsModelExt "txt") :=
  ⟨((C6_routing_characterisation "scene.v2.gltf").2 "gltf"
      ⟨by decide, Or.inr ⟨"scene.v2", by decide⟩⟩).1,
    ((C6_routing_characterisation "notes.txt").2 "txt"
      ⟨by decide, Or.inr ⟨"notes", by decide⟩⟩).2.1⟩

/-- C7: in every environment the two configurations have the same
`assetFileNames` results, the same root, build settings, assetsInclude,
optimizeDeps and publicDir; replacing base, server.https, server.host,
preview.https, preview.host and plugins of the GitHub configuration by the
development values gives the development configuration, and those server,
preview and plugin values do differ; when GITHUB_ACTIONS is not `true` or
VITE_REPO_NAME is unset or empty the bases agree (both `./`), otherwise they
differ. -/
theorem C7_configs_equivalent (env : Env) :
    (∀ a, (viteConfigGitHub env).build.rollupOptions.output.assetFileNames a =
      viteConfig.build.rollupOptions.output.assetFileNames a) ∧
    (viteConfigGitHub env).root = viteConfig.root ∧
    ((viteConfigGitHub env).build.outDir = viteConfig.build.outDir ∧
      (viteConfigGitHub env).build.assetsDir = viteConfig.build.assetsDir ∧
      (viteConfigGitHub env).build.sourcemap = viteConfig.build.sourcemap ∧
      (viteConfigGitHub env).build.minify = viteConfig.build.minify ∧
      (viteConfigGitHub env).build.rollupOptions.input = viteConfig.build.rollupOptions.input ∧
      (viteConfigGitHub env).build.rollupOptions.output.manualChunks =
        viteConfig.build.rollupOptions.output.manualChunks ∧
      (viteConfigGitHub env).build.rollupOptions.output.chunkFileNames =
        viteConfig.build.rollupOptions.output.chunkFileNames ∧
      (viteConfigGitHub env).build.rollupOptions.output.entryFileNames =
        viteConfig.build.rollupOptions.output.entryFileNames ∧
      (viteConfigGitHub env).build.assetsInlineLimit = viteConfig.build.assetsInlineLimit ∧
      (viteConfigGitHub env).build.target = viteConfig.build.target ∧
      (viteConfigGitHub env).build.terserOptions = viteConfig.build.terserOptions ∧
      (viteConfigGitHub env).build.reportCompressedSize =
        viteConfig.build.reportCompressedSize ∧
      (viteConfigGitHub env).build.chunkSizeWarningLimit =
        viteConfig.build.chunkSizeWarningLimit ∧
      (viteConfigGitHub env).build = viteConfig.build) ∧
    (viteConfigGitHub env).assetsInclude = viteConfig.assetsInclude ∧
    (viteConfigGitHub env).optimizeDeps = viteConfig.optimizeDeps ∧
    (viteConfigGitHub env).publicDir = viteConfig.publicDir ∧
    ({ viteConfigGitHub env with
        base := viteConfig.base
        server := { (viteConfigGitHub env).server with
          https := viteConfig.server.https
          host := viteConfig.server.host }
        preview := { (viteConfigGitHub env).preview with
          https := viteConfig.preview.https
          host := viteConfig.preview.host }
        plugins := viteConfig.plugins } = viteConfig) ∧
    ((viteConfigGitHub env).server.https ≠ viteConfig.server.https ∧
      (viteConfigGitHub env).server.host ≠ viteConfig.server.host ∧
      (viteConfigGitHub env).preview.https ≠ viteConfig.preview.https ∧
      (viteConfigGitHub env).preview.host ≠ viteConfig.preview.host ∧
      (viteConfigGitHub env).plugins ≠ viteConfig.plugins) ∧
    ((env.GITHUB_ACTIONS ≠ some "true" ∨ env.VITE_REPO_NAME = none ∨
        env.VITE_REPO_NAME = some "") →
      (viteConfigGitHub env).base = viteConfig.base ∧ viteConfig.base = "./") ∧
    ((env.GITHUB_ACTIONS = some "true" ∧ ∃ r, env.VITE_REPO_NAME = some r ∧ r ≠ "") →
      (viteConfigGitHub env).base ≠ viteConfig.base) := by
  refine ⟨fun _ => rfl, rfl,
    ⟨rfl, rfl, rfl, rfl, rfl, rfl, rfl, rfl, rfl, rfl, rfl, rfl, rfl, rfl⟩, rfl, rfl, rfl, rfl,
    ⟨by simp [viteConfigGitHub, viteConfig], by simp [viteConfigGitHub, viteConfig],
      by simp [viteConfigGitHub, viteConfig], by simp [viteConfigGitHub, viteConfig],
      by simp [viteConfigGitHub, viteConfig]⟩, ?_, ?_⟩
  · obtain ⟨ga, rn⟩ := env
    rintro (h | h | h)
    · exact ⟨by simp [viteConfigGitHub, base, isGitHubPages, viteConfig, h], rfl⟩
    · simp only at h
      subst h
      exact ⟨by simp [viteConfigGitHub, base, repoName, jsOr, truthy, viteConfig], rfl⟩
    · simp only at h
      subst h
      exact ⟨by simp [viteConfigGitHub, base, repoName, jsOr, truthy, viteConfig], rfl⟩
  · obtain ⟨ga, rn⟩ := env
    rintro ⟨hga, r, hr, hne⟩
    simp only at hga hr
    subst hr
    have hb : (viteConfigGitHub ⟨ga, some r⟩).base = "/" ++ r ++ "/" := by
      simp [viteConfigGitHub, base, repoName, jsOr, truthy, hne, isGitHubPages, hga]
    rw [hb]
    exact fun h => dotSlash_ne_slashed r h.symm

theorem C7_configs_equivalent_witness :
    ((viteConfigGitHub ⟨some "false", some "foo"⟩).base = viteConfig.base ∧
      viteConfig.base = "./") ∧
    (viteConfigGitHub ⟨some "true", some "foo"⟩).base ≠ viteConfig.base :=
  ⟨(C7_configs_equivalent ⟨some "false", some "foo"⟩).2.2.2.2.2.2.2.2.1 (Or.inl (by decide)),
    (C7_configs_equivalent ⟨some "true", some "foo"⟩).2.2.2.2.2.2.2.2.2
      ⟨rfl, "foo", rfl, by decide⟩⟩

/-- C8: for every string name the split on `.` is non-empty, the index
`info.length - 1` is in bounds and the extension is a defined string, and the
callback of either configuration returns one of the two templates without
failing; the empty name and every name ending in `.` get
`assets/[name]-[hash][extname]`. -/
theorem C8_total_on_strings (name : String) :
    split name '.' ≠ [] ∧
    (split name '.').length - 1 < (split name '.').length ∧
    (∃ ext, (split name '.')[(split name '.').length - 1]? = some ext) ∧
    (assetFileNames ⟨some name⟩ = some "models/[name]-[hash][extname]" ∨
      assetFileNames ⟨some name⟩ = some "assets/[name]-[hash][extname]") ∧
    (assetFileNamesGitHub ⟨some name⟩ = some "models/[name]-[hash][extname]" ∨
      assetFileNamesGitHub ⟨some name⟩ = some "assets/[name]-[hash][extname]") ∧
    (assetFileNames ⟨some ""⟩ = some "assets/[name]-[hash][extname]" ∧
      assetFileNamesGitHub ⟨some ""⟩ = some "assets/[name]-[hash][extname]") ∧
    (assetFileNames ⟨some (name ++ ".")⟩ = some "assets/[name]-[hash][extname]" ∧
      assetFileNamesGitHub ⟨some (name ++ ".")⟩ = some "assets/[name]-[hash][extname]") := by
  have hne : split name '.' ≠ [] := by
    simp [split, splitChars_ne_nil]
  obtain ⟨seg, hseg⟩ := exists_lastSegment name
  have hr := assetFileNames_of_lastSegment name seg hseg
  have hroute : assetFileNames ⟨some name⟩ = some "models/[name]-[hash][extname]" ∨
      assetFileNames ⟨some name⟩ = some "assets/[name]-[hash][extname]" := by
    rw [hr]
    by_cases hs : searchChars ["glb", "gltf", "bin"] seg.data = true
    · exact Or.inl (by simp [hs, modelsTemplate])
    · exact Or.inr (by simp [hs, assetsTemplate])
  have hdot : assetFileNames ⟨some (name ++ ".")⟩ = some "assets/[name]-[hash][extname]" := by
    have hl : IsLastSegment (name ++ ".") "" := ⟨by simp, Or.inr ⟨name, by simp⟩⟩
    rw [assetFileNames_of_lastSegment _ _ hl]
    rfl
  refine ⟨hne, ?_, ⟨seg, extType_of_lastSegment name seg hseg⟩, hroute, ?_, ⟨by decide, by decide⟩,
    hdot, ?_⟩
  · have : 0 < (split name '.').length := List.length_pos.2 hne
    omega
  · rw [assetFileNamesGitHub_eq]
    exact hroute
  · rw [assetFileNamesGitHub_eq]
    exact hdot

end AR
